import Mathlib

/-
Verification of the csync tree-synchronization engine (src/engine.py,
src/fs.py, src/pull.py, src/push.py) against its specification.

Modelling conventions:
- A filesystem path is the list of its components relative to the base
  directory (`LocalStorage.base_dir`), so the base directory itself is `[]`.
  The base directory name is assumed not to contain the substring "children"
  (the code tests `"children" in str(path)` on absolute paths).
- `Storage` models the local mirror: the set of existing directories, the
  `metadata.json` record of each page directory (only the fields the engine
  reads: id, title, version number), the `content.html` payload of each
  directory, the persisted id_map, and the persisted sync-plan file.
- Remote HTTP reads return the prefetched `PageTree`; network transport and
  attachment payloads are external collaborators and are not modelled beyond
  the local directories they create and the calls issued to them.
-/

namespace Csync

/-- A local filesystem path, as components relative to the mirror base dir. -/
abbrev LPath := List String

/-- The fields of a metadata.json record that the engine reads:
`metadata.get("id")` (absent for unbound local pages), `metadata["title"]`,
and `metadata["version"]["number"]`. -/
structure PageMeta where
  id : Option String
  title : String
  version : Nat
deriving DecidableEq, Repr

/-- A remote page tree as built by `SyncEngine._build_page_tree`: id, title,
version number, body content (`body.storage.value` of the stored metadata
blob), and the recursively fetched children. -/
inductive PageTree : Type where
  | mk (id title : String) (version : Nat) (content : String) (children : List PageTree)

def PageTree.id : PageTree → String
  | .mk i _ _ _ _ => i

def PageTree.title : PageTree → String
  | .mk _ t _ _ _ => t

def PageTree.version : PageTree → Nat
  | .mk _ _ v _ _ => v

def PageTree.content : PageTree → String
  | .mk _ _ _ c _ => c

def PageTree.children : PageTree → List PageTree
  | .mk _ _ _ _ cs => cs

mutual

/-- The ids of all nodes of a remote tree, in depth-first preorder. -/
def PageTree.ids : PageTree → List String
  | .mk i _ _ _ cs => i :: PageTree.idsOfForest cs
termination_by structural p => p

/-- The ids of all nodes of a list of remote trees, in depth-first preorder. -/
def PageTree.idsOfForest : List PageTree → List String
  | [] => []
  | c :: rest => PageTree.ids c ++ PageTree.idsOfForest rest
termination_by structural ps => ps

end

/-- An entry of the `to_create` bucket of a sync plan: id, title, the parent
directory context (None for the root), and the prefetched page metadata. -/
structure CreateItem where
  id : String
  title : String
  parentDir : Option LPath
  page : PageTree

/-- An entry of the `to_update` bucket: id, title, the bound local directory,
and the prefetched page metadata. -/
structure UpdateItem where
  id : String
  title : String
  localDir : LPath
  page : PageTree

/-- An entry of the `to_rename` bucket: id, old and new titles, the bound
local directory, and the prefetched page metadata. -/
structure RenameItem where
  id : String
  oldTitle : String
  newTitle : String
  localDir : LPath
  page : PageTree

/-- A sync plan as built by `SyncEngine._create_sync_plan`; the `unchanged`
bucket records id and title. The stats dictionary of the code is the four
bucket lengths and is not modelled separately. -/
structure Plan where
  toUpdate : List UpdateItem
  toCreate : List CreateItem
  unchanged : List (String × String)
  toRename : List RenameItem

def emptyPlan : Plan := ⟨[], [], [], []⟩

/-- The state of the local mirror. `dirs` is the set of existing directories,
`meta` maps a directory to its metadata.json record, `content` maps a
directory to its content.html payload, `idMap` is the persisted id_map.json,
and `planFile` is the persisted sync_plan.json. -/
structure Storage where
  dirs : List LPath
  meta : List (LPath × PageMeta)
  content : List (LPath × String)
  idMap : List (String × LPath)
  planFile : Option Plan

/-- Update-or-insert into an association list, keeping the position of an
existing key: the behaviour of a Python dict assignment and of overwriting
a file at an existing path. -/
def upsertAssoc {α β : Type} [BEq α] (l : List (α × β)) (k : α) (v : β) : List (α × β) :=
  match l with
  | [] => [(k, v)]
  | (k0, v0) :: rest => if k0 == k then (k, v) :: rest else (k0, v0) :: upsertAssoc rest k v

/-- Model of `Path.mkdir(parents=True, exist_ok=True)`: the directory and all
of its ancestors exist afterwards. -/
def mkdirParents (dirs : List LPath) (p : LPath) : List LPath :=
  p.inits.foldl (fun ds q => if ds.contains q then ds else ds ++ [q]) dirs

/-- LocalStorage._sanitize_filename: replace each of the nine invalid
characters by an underscore, then truncate to 255 characters. -/
def invalidFileChars : List Char := ['<', '>', ':', '"', '/', '\\', '|', '?', '*']

def sanitizeFilename (filename : String) : String :=
  let replaced := filename.toList.map (fun c => if invalidFileChars.contains c then '_' else c)
  let limited := if replaced.length > 255 then replaced.take 255 else replaced
  String.mk limited

/-- LocalStorage.get_page_dir: the root-level directory for a title. -/
def getPageDir (title : String) : LPath := [sanitizeFilename title]

/-- LocalStorage.get_child_dir: parent / "children" / sanitized title. -/
def getChildDir (parentDir : LPath) (title : String) : LPath :=
  parentDir ++ ["children", sanitizeFilename title]

/-- LocalStorage.get_page_metadata: read metadata.json of a directory. -/
def getPageMetadata (s : Storage) (pageDir : LPath) : Option PageMeta :=
  s.meta.lookup pageDir

/-- LocalStorage.get_page_content: read content.html of a directory. -/
def getPageContent (s : Storage) (pageDir : LPath) : Option String :=
  s.content.lookup pageDir

/-- LocalStorage.update_id_map: upsert an entry and persist immediately. -/
def updateIdMap (s : Storage) (pageId : String) (p : LPath) : Storage :=
  { s with idMap := upsertAssoc s.idMap pageId p }

/-- LocalStorage.save_page_content: mkdir the page directory, write content. -/
def savePageContent (s : Storage) (pageDir : LPath) (c : String) : Storage :=
  { s with dirs := mkdirParents s.dirs pageDir, content := upsertAssoc s.content pageDir c }

/-- LocalStorage.save_page_metadata: mkdir the page directory, write metadata. -/
def savePageMetadata (s : Storage) (pageDir : LPath) (m : PageMeta) : Storage :=
  { s with dirs := mkdirParents s.dirs pageDir, meta := upsertAssoc s.meta pageDir m }

/-- The metadata scan fallback of LocalStorage.get_page_dir_by_id: walk every
metadata.json under the base dir (in filesystem order, modelled by the order
of `s.meta`); on the first record whose id field equals the page id, write the
found path back to the id map and return it. Unparseable metadata files are
skipped by the code and are therefore not present in `s.meta`. -/
def scanForId (s : Storage) (pageId : String) : Option LPath × Storage :=
  match s.meta.find? (fun e => e.2.id == some pageId) with
  | some e => (some e.1, updateIdMap s pageId e.1)
  | none => (none, s)

/-- LocalStorage.get_page_dir_by_id: consult the id map first; a hit whose
path still exists is returned as is, otherwise fall back to the metadata
scan (which lazily repairs the map). -/
def getPageDirById (s : Storage) (pageId : String) : Option LPath × Storage :=
  match s.idMap.lookup pageId with
  | some p => if s.dirs.contains p then (some p, s) else scanForId s pageId
  | none => scanForId s pageId

mutual

/-- SyncEngine._analyze_page: classify one remote node against the local
mirror and recurse into its children with the parent context implied by the
classification. -/
def analyzePage (s : Storage) (plan : Plan) : PageTree → Option LPath → Storage × Plan
  | .mk pid ptitle pversion pcontent pchildren, parentDir =>
    let page : PageTree := .mk pid ptitle pversion pcontent pchildren
    match getPageDirById s pid with
    | (none, s1) =>
      let plan1 := { plan with toCreate := plan.toCreate ++ [⟨pid, ptitle, parentDir, page⟩] }
      let newParentDir :=
        match parentDir with
        | some pd => getChildDir pd ptitle
        | none => getPageDir ptitle
      analyzeChildren s1 plan1 pchildren (some newParentDir)
    | (some localDir, s1) =>
      let plan1 :=
        match getPageMetadata s1 localDir with
        | none =>
          { plan with toCreate := plan.toCreate ++ [⟨pid, ptitle, parentDir, page⟩] }
        | some md =>
          if md.title ≠ ptitle then
            { plan with toRename := plan.toRename ++ [⟨pid, md.title, ptitle, localDir, page⟩] }
          else if md.version < pversion then
            { plan with toUpdate := plan.toUpdate ++ [⟨pid, ptitle, localDir, page⟩] }
          else
            { plan with unchanged := plan.unchanged ++ [(pid, ptitle)] }
      analyzeChildren s1 plan1 pchildren (some localDir)
termination_by structural p => p

/-- The child loop of SyncEngine._analyze_page. -/
def analyzeChildren (s : Storage) (plan : Plan) : List PageTree → Option LPath → Storage × Plan
  | [], _ => (s, plan)
  | c :: rest, parentDir =>
    let r := analyzePage s plan c parentDir
    analyzeChildren r.1 r.2 rest parentDir
termination_by structural ps => ps

end

/-- SyncEngine._create_sync_plan: analyze the whole tree from an empty plan,
with no parent context for the root. -/
def createSyncPlan (tree : PageTree) (s : Storage) : Storage × Plan :=
  analyzePage s emptyPlan tree none

/-- Substring test on character lists, modelling the Python `in` operator on
strings. -/
def prefixCheck : List Char → List Char → Bool
  | [], _ => true
  | _ :: _, [] => false
  | a :: as, b :: bs => a == b && prefixCheck as bs

def infixCheck (pat : List Char) : List Char → Bool
  | [] => prefixCheck pat []
  | c :: rest => prefixCheck pat (c :: rest) || infixCheck pat rest

/-- Joining of path components by "/", modelling `str(path)` relative to the
base directory (whose own name is assumed not to contain "children"). -/
def joinPath : LPath → String
  | [] => ""
  | [c] => c
  | c :: rest => c ++ "/" ++ joinPath rest

/-- The `"children" in str(current_dir)` test of PullOperations.handle_renamed_page. -/
def pathMentionsChildren (p : LPath) : Bool :=
  infixCheck "children".toList (joinPath p).toList

/-- Rebasing of a path under a directory move: paths at or below the moved
directory are re-rooted at its new location, all others are unchanged. -/
def rebasePath (oldDir newDir p : LPath) : LPath :=
  if oldDir.isPrefixOf p then newDir ++ p.drop oldDir.length else p

/-- Model of `current_dir.rename(new_dir)`: the whole subtree (directories,
metadata files, content files) moves; id_map entries are deliberately not
rewritten by the code, so entries for descendants go stale. -/
def moveDir (s : Storage) (oldDir newDir : LPath) : Storage :=
  { s with
    dirs := s.dirs.map (rebasePath oldDir newDir)
    meta := s.meta.map (fun e => (rebasePath oldDir newDir e.1, e.2))
    content := s.content.map (fun e => (rebasePath oldDir newDir e.1, e.2)) }

/-- The parent directory computed by PullOperations.handle_renamed_page: two
levels up for a child page (past the "children" container), one level up
otherwise. -/
def renameParentDir (currentDir : LPath) : LPath :=
  if pathMentionsChildren currentDir then currentDir.dropLast.dropLast
  else currentDir.dropLast

/-- The non-colliding rename target of PullOperations.handle_renamed_page. -/
def renameTargetDir (currentDir : LPath) (newTitle : String) : LPath :=
  if pathMentionsChildren currentDir then
    renameParentDir currentDir ++ ["children", sanitizeFilename newTitle]
  else renameParentDir currentDir ++ [sanitizeFilename newTitle]

/-- The disambiguated rename target used on a collision: the sanitized new
title suffixed with the page id, directly under `renameParentDir` (note: the
code does not reinsert the "children" component here). -/
def renameSuffixedDir (currentDir : LPath) (newTitle pageId : String) : LPath :=
  renameParentDir currentDir ++ [sanitizeFilename newTitle ++ "_" ++ pageId]

/-- PullOperations.handle_renamed_page. Failure (`.error`) models the uncaught
TypeError when the resolved directory has no readable metadata record. -/
def handleRenamedPage (s : Storage) (pageId newTitle : String) :
    Except Unit (Storage × LPath) :=
  match getPageDirById s pageId with
  | (none, s1) => .ok (s1, getPageDir newTitle)
  | (some currentDir, s1) =>
    match getPageMetadata s1 currentDir with
    | none => .error ()
    | some md =>
      let s2 := savePageMetadata s1 currentDir { md with title := newTitle }
      let newDir0 := renameTargetDir currentDir newTitle
      let newDir :=
        if s2.dirs.contains newDir0 ∧ newDir0 ≠ currentDir then
          renameSuffixedDir currentDir newTitle pageId
        else newDir0
      let s3 :=
        if currentDir ≠ newDir then
          moveDir { s2 with dirs := mkdirParents s2.dirs newDir.dropLast } currentDir newDir
        else s2
      let s4 := updateIdMap s3 pageId newDir
      .ok (s4, newDir)

/-- PullOperations.pull_page, as invoked by the plan executor: the metadata
blob is always provided, so no network fetch happens; the content is the body
stored in the blob. Attachment downloads are an external collaborator; the
code creates the attachments directory, then replaces its contents with the
downloaded snapshot (download failures are logged and ignored), which leaves
the directory in place. In dry-run mode the function returns the empty path
without touching anything. -/
def pullPage (dryRun : Bool) (s : Storage) (page : PageTree) (parentDir : Option LPath) :
    Storage × LPath :=
  if dryRun then (s, [])
  else
    let pageDir :=
      match parentDir with
      | some pd => getChildDir pd page.title
      | none => getPageDir page.title
    let s1 := savePageContent s pageDir page.content
    let s2 := savePageMetadata s1 pageDir ⟨some page.id, page.title, page.version⟩
    let s3 := { s2 with dirs := mkdirParents s2.dirs (pageDir ++ ["attachments"]) }
    (s3, pageDir)

/-- Observable actions of the plan executor, in application order. -/
inductive ExecEvent where
  | renamed (id newTitle : String)
  | created (id : String)
  | updated (id : String)
deriving DecidableEq, Repr

def ExecEvent.isRenamed : ExecEvent → Bool
  | .renamed _ _ => true
  | _ => false

def ExecEvent.isCreated : ExecEvent → Bool
  | .created _ => true
  | _ => false

def ExecEvent.isUpdated : ExecEvent → Bool
  | .updated _ => true
  | _ => false

/-- The rename loop of SyncEngine._execute_sync_plan. An exception escaping
handle_renamed_page aborts the whole plan execution (the code has no per-item
handler there); the trace records the renames applied before the failure. -/
def execRenames (s : Storage) : List RenameItem → Except Unit Storage × List ExecEvent
  | [] => (.ok s, [])
  | it :: rest =>
    match handleRenamedPage s it.id it.newTitle with
    | .error e => (.error e, [])
    | .ok (s1, _) =>
      let r := execRenames s1 rest
      (r.1, .renamed it.id it.newTitle :: r.2)

/-- The create loop of SyncEngine._execute_sync_plan: pull each new page at
its planned parent directory. Executed only on non-dry runs. -/
def execCreates (s : Storage) : List CreateItem → Storage × List ExecEvent
  | [] => (s, [])
  | it :: rest =>
    let r := pullPage false s it.page it.parentDir
    let r2 := execCreates r.1 rest
    (r2.1, .created it.id :: r2.2)

/-- The update loop of SyncEngine._execute_sync_plan: pull each changed page
with `item["local_dir"].parent` as the parent directory argument. -/
def execUpdates (s : Storage) : List UpdateItem → Storage × List ExecEvent
  | [] => (s, [])
  | it :: rest =>
    let r := pullPage false s it.page (some it.localDir.dropLast)
    let r2 := execUpdates r.1 rest
    (r2.1, .updated it.id :: r2.2)

/-- SyncEngine._execute_sync_plan: renames first, then creates, then updates. -/
def executeSyncPlan (plan : Plan) (s : Storage) : Except Unit Storage × List ExecEvent :=
  match execRenames s plan.toRename with
  | (.error e, tr) => (.error e, tr)
  | (.ok s1, tr1) =>
    let r2 := execCreates s1 plan.toCreate
    let r3 := execUpdates r2.1 plan.toUpdate
    (.ok r3.1, tr1 ++ r2.2 ++ r3.2)

/-- LocalStorage.__init__ directory creation: the base directory and the
hidden .csync control directory are created if missing. -/
def initLocalStorageDirs (s : Storage) : Storage :=
  { s with dirs := mkdirParents (mkdirParents s.dirs []) [".csync"] }

/-- The unconditional write of .csync/sync_plan.json in SyncEngine.pull. -/
def writePlanFile (s : Storage) (plan : Plan) : Storage :=
  { s with planFile := some plan }

/-- SyncEngine.pull over a prefetched remote tree: initialize local storage,
analyze the tree into a sync plan, persist the plan file, and execute the
plan unless this is a dry run. Returns the final storage and the plan of
this run (whose bucket lengths are the returned stats of the code). -/
def pull (dryRun : Bool) (tree : PageTree) (s : Storage) : Except Unit (Storage × Plan) :=
  let s1 := initLocalStorageDirs s
  let r := createSyncPlan tree s1
  let s3 := writePlanFile r.1 r.2
  if dryRun then .ok (s3, r.2)
  else
    match executeSyncPlan r.2 s3 with
    | (.ok s4, _) => .ok (s4, r.2)
    | (.error e, _) => .error e

/-- A page record of the remote system (the external Confluence store). -/
structure RemotePage where
  id : String
  title : String
  body : String
  version : Nat
  parentId : Option String
deriving DecidableEq, Repr

/-- The remote store: its pages and a counter for freshly assigned ids. -/
structure Remote where
  pages : List RemotePage
  nextId : Nat
deriving DecidableEq, Repr

/-- Model of the external collaborator call `client.update_or_create`: if a
page with the given title already exists it is updated in place with a bumped
version, otherwise a new page with a fresh id and version 1 is created under
the given parent. -/
def updateOrCreate (r : Remote) (parentId : String) (title body : String) :
    Remote × RemotePage :=
  match r.pages.find? (fun p => p.title == title) with
  | some p =>
    let p1 := { p with body := body, version := p.version + 1 }
    ({ r with pages := r.pages.map (fun q => if q.id == p.id then p1 else q) }, p1)
  | none =>
    let newPage : RemotePage := ⟨"id" ++ toString r.nextId, title, body, 1, some parentId⟩
    ({ pages := r.pages ++ [newPage], nextId := r.nextId + 1 }, newPage)

/-- One observed remote write of the push path: the parent id, title and body
passed to `client.update_or_create`. -/
structure PushCall where
  parentId : String
  title : String
  body : String
deriving DecidableEq, Repr

/-- The placeholder body used when a local node has no content artifact. -/
def todoBody : String := "<p>todo</p>"

/-- PushOperations.push_page: read the content (falling back to the
placeholder when the artifact is absent or empty, via `... or "<p>todo</p>"`),
read the metadata record, and issue one update_or_create call under the given
parent id; the id of the resulting remote page is returned. Failure models
the uncaught TypeError when the directory has no metadata record. The
emoji-property call and the attachment uploads touch only the remote side
and are not modelled; crucially, the function never writes to local storage
(the version write-back is commented out in the code), so no storage value
is produced. -/
def pushPage (s : Storage) (r : Remote) (localDir : LPath) (parentId : String) :
    Except Unit (Remote × List PushCall × String) :=
  let content :=
    match getPageContent s localDir with
    | some c => if c = "" then todoBody else c
    | none => todoBody
  match getPageMetadata s localDir with
  | none => .error ()
  | some md =>
    let r1 := updateOrCreate r parentId md.title content
    .ok (r1.1, [⟨parentId, md.title, content⟩], r1.2.id)

/-- The child directories discovered by PushOperations.push_page_tree: the
subdirectories of `local_dir / "children"`, in filesystem order (modelled by
the order of `s.dirs`). -/
def childDirs (s : Storage) (localDir : LPath) : List LPath :=
  if s.dirs.contains (localDir ++ ["children"]) then
    s.dirs.filter (fun d =>
      (localDir ++ ["children"]).isPrefixOf d && d.length == localDir.length + 2)
  else []

/-- The child loop of PushOperations.push_page_tree, folding the remote state
and the call trace through the recursive pushes of the child directories. -/
def pushKids (f : Remote → LPath → Except Unit (Remote × List PushCall × String)) :
    List LPath → Remote → Except Unit (Remote × List PushCall)
  | [], r => .ok (r, [])
  | k :: rest, r =>
    match f r k with
    | .error e => .error e
    | .ok (r1, calls1, _) =>
      match pushKids f rest r1 with
      | .error e => .error e
      | .ok (r2, calls2) => .ok (r2, calls1 ++ calls2)

/-- PushOperations.push_page_tree, with an explicit recursion-depth budget:
push the node itself, then (in recursive mode) push every child directory
with the id returned for the node as its parent id. The budget only bounds
the recursion depth; the wrapper below supplies a budget larger than any
directory depth, so the budget-exhausted branch is unreachable on actual
mirror states. -/
def pushPageTreeFuel (recurse : Bool) (s : Storage) :
    Nat → Remote → LPath → String → Except Unit (Remote × List PushCall × String)
  | 0, _, _, _ => .error ()
  | fuel + 1, r, localDir, parentId =>
    match pushPage s r localDir parentId with
    | .error e => .error e
    | .ok (r1, calls1, pid) =>
      if recurse then
        match pushKids (fun r2 d => pushPageTreeFuel recurse s fuel r2 d pid)
            (childDirs s localDir) r1 with
        | .error e => .error e
        | .ok (r2, calls2) => .ok (r2, calls1 ++ calls2, pid)
      else .ok (r1, calls1, pid)

/-- The maximal number of components of any existing directory. -/
def maxPathLen (dirs : List LPath) : Nat :=
  dirs.foldr (fun d m => max d.length m) 0

/-- PushOperations.push_page_tree: every recursive call descends two path
components deeper into existing directories, so a budget beyond the deepest
directory is never exhausted. -/
def pushPageTree (recurse : Bool) (s : Storage) (r : Remote) (localDir : LPath)
    (parentId : String) : Except Unit (Remote × List PushCall × String) :=
  pushPageTreeFuel recurse s (maxPathLen s.dirs + 1) r localDir parentId

/-- The persisted id_map.json as loaded by LocalStorage.__init__. The byte
content of the file is abstracted to the outcome of the external `json.load`
call on it: `none` models a file that exists but does not parse (json.load
raises), `some m` a file parsing to the map `m`. -/
def loadIdMap (file : Option (Option (List (String × String)))) :
    Except Unit (List (String × String)) :=
  match file with
  | none => .ok []
  | some parsed =>
    match parsed with
    | some m => .ok m
    | none => .error ()

/-
Spec-side definitions. The following three definitions are written from the
words of the specification (section 4.3, Diff Planner), to be compared with
the behaviour of the `analyzePage` translation of the code.
-/

/-- The four classifications of the Diff Planner. -/
inductive SyncClass where
  | create
  | rename
  | update
  | unchanged
deriving DecidableEq, Repr

/-- Modelled from the spec, section 4.3: the decision procedure for one
remote node, given the result of IdIndex resolution and the local metadata
at the resolved directory. Not found, or found with metadata absent, means
create; a differing title means rename; an older local version means update;
otherwise unchanged. -/
def specClassify (localDir : Option LPath) (md : Option PageMeta)
    (remoteTitle : String) (remoteVersion : Nat) : SyncClass :=
  match localDir with
  | none => .create
  | some _ =>
    match md with
    | none => .create
    | some m =>
      if m.title ≠ remoteTitle then .rename
      else if m.version < remoteVersion then .update
      else .unchanged

/-- Modelled from the spec, section 4.3: the parent context handed to the
children of a classified node. With no resolved local directory the children
use the prospective path derived from the title under the intended parent;
with a resolved (bound) directory the children use that old bound path. -/
def specChildContext (localDir : Option LPath) (parentDir : Option LPath)
    (title : String) : LPath :=
  match localDir with
  | some d => d
  | none =>
    match parentDir with
    | some pd => getChildDir pd title
    | none => getPageDir title

/-- The single plan entry a classification contributes: exactly one bucket of
the plan is extended by exactly one record for the node. -/
def specRecord (plan : Plan) (cls : SyncClass) (page : PageTree)
    (parentDir : Option LPath) (localDir : Option LPath) (md : Option PageMeta) : Plan :=
  match cls with
  | .create =>
    { plan with toCreate := plan.toCreate ++ [⟨page.id, page.title, parentDir, page⟩] }
  | .rename =>
    { plan with toRename :=
        plan.toRename ++ [⟨page.id, ((md.map PageMeta.title).getD ""), page.title,
          localDir.getD [], page⟩] }
  | .update =>
    { plan with toUpdate := plan.toUpdate ++ [⟨page.id, page.title, localDir.getD [], page⟩] }
  | .unchanged =>
    { plan with unchanged := plan.unchanged ++ [(page.id, page.title)] }

/-- C1: for every remote node, the pull Diff Planner assigns exactly one
classification, the one given by the decision procedure of the spec
(create when resolution fails or local metadata is absent, rename when the
titles differ, update when the local version is strictly older, otherwise
unchanged), appends exactly one record for it to the corresponding bucket,
and analyzes the children with the parent context dictated by the
classification (the prospective path in the no-local-directory create case,
the old bound path otherwise). -/
theorem claim1_analyze_classification (s : Storage) (plan : Plan) (p : PageTree)
    (parentDir : Option LPath) :
    analyzePage s plan p parentDir =
      (let r := getPageDirById s p.id
       let md := r.1.bind (getPageMetadata r.2)
       analyzeChildren r.2
         (specRecord plan (specClassify r.1 md p.title p.version) p parentDir r.1 md)
         p.children (some (specChildContext r.1 parentDir p.title))) := by
  cases p with
  | mk pid ptitle pversion pcontent pchildren =>
    simp only [analyzePage, PageTree.id, PageTree.title, PageTree.version, PageTree.children]
    cases hr : getPageDirById s pid with
    | mk res s1 =>
      cases res with
      | none =>
        simp [specClassify, specRecord, specChildContext, PageTree.id, PageTree.title]
      | some localDir =>
        cases hm : getPageMetadata s1 localDir with
        | none =>
          simp [hm, specClassify, specRecord, specChildContext, PageTree.id, PageTree.title]
        | some md =>
          by_cases ht : md.title ≠ ptitle
          · simp [hm, ht, specClassify, specRecord, specChildContext, PageTree.id, PageTree.title]
          · by_cases hv : md.version < pversion
            · simp [hm, ht, hv, specClassify, specRecord, specChildContext, PageTree.id,
                PageTree.title]
            · simp [hm, ht, hv, specClassify, specRecord, specChildContext, PageTree.id,
                PageTree.title]

/-- The remote ids mentioned anywhere in a sync plan, across all four
buckets. -/
def Plan.ids (pl : Plan) : List String :=
  pl.toCreate.map CreateItem.id ++ pl.toRename.map RenameItem.id ++
    pl.toUpdate.map UpdateItem.id ++ pl.unchanged.map Prod.fst

theorem ids_append_create (pl : Plan) (it : CreateItem) :
    ({ pl with toCreate := pl.toCreate ++ [it] } : Plan).ids.Perm (it.id :: pl.ids) := by
  refine List.perm_iff_count.mpr (fun a => ?_)
  simp only [Plan.ids, List.map_append, List.count_append, List.count_cons, List.map_cons,
    List.map_nil, List.count_singleton, List.count_nil]
  split <;> omega

theorem ids_append_rename (pl : Plan) (it : RenameItem) :
    ({ pl with toRename := pl.toRename ++ [it] } : Plan).ids.Perm (it.id :: pl.ids) := by
  refine List.perm_iff_count.mpr (fun a => ?_)
  simp only [Plan.ids, List.map_append, List.count_append, List.count_cons, List.map_cons,
    List.map_nil, List.count_singleton, List.count_nil]
  split <;> omega

theorem ids_append_update (pl : Plan) (it : UpdateItem) :
    ({ pl with toUpdate := pl.toUpdate ++ [it] } : Plan).ids.Perm (it.id :: pl.ids) := by
  refine List.perm_iff_count.mpr (fun a => ?_)
  simp only [Plan.ids, List.map_append, List.count_append, List.count_cons, List.map_cons,
    List.map_nil, List.count_singleton, List.count_nil]
  split <;> omega

theorem ids_append_unchanged (pl : Plan) (it : String × String) :
    ({ pl with unchanged := pl.unchanged ++ [it] } : Plan).ids.Perm (it.1 :: pl.ids) := by
  refine List.perm_iff_count.mpr (fun a => ?_)
  simp only [Plan.ids, List.map_append, List.count_append, List.count_cons, List.map_cons,
    List.map_nil, List.count_singleton, List.count_nil]
  split <;> omega

mutual

/-- Analyzing a node contributes to the plan exactly one entry per visited
node: the ids of the resulting plan are a permutation of the ids of the
subtree together with the ids already in the plan. -/
theorem analyzePage_ids_perm (s : Storage) (plan : Plan) (p : PageTree)
    (parentDir : Option LPath) :
    ((analyzePage s plan p parentDir).2).ids.Perm (p.ids ++ plan.ids) := by
  cases p with
  | mk pid ptitle pversion pcontent pchildren =>
    simp only [analyzePage, PageTree.ids]
    cases hr : getPageDirById s pid with
    | mk res s1 =>
      cases res with
      | none =>
        refine (analyzeChildren_ids_perm _ _ pchildren _).trans ?_
        refine ((ids_append_create plan _).append_left _).trans ?_
        exact List.perm_middle
      | some localDir =>
        cases hm : getPageMetadata s1 localDir with
        | none =>
          simp only [hm]
          refine (analyzeChildren_ids_perm _ _ pchildren _).trans ?_
          refine ((ids_append_create plan _).append_left _).trans ?_
          exact List.perm_middle
        | some md =>
          simp only [hm]
          by_cases ht : md.title ≠ ptitle
          · rw [if_pos ht]
            refine (analyzeChildren_ids_perm _ _ pchildren _).trans ?_
            refine ((ids_append_rename plan _).append_left _).trans ?_
            exact List.perm_middle
          · by_cases hv : md.version < pversion
            · rw [if_neg ht, if_pos hv]
              refine (analyzeChildren_ids_perm _ _ pchildren _).trans ?_
              refine ((ids_append_update plan _).append_left _).trans ?_
              exact List.perm_middle
            · rw [if_neg ht, if_neg hv]
              refine (analyzeChildren_ids_perm _ _ pchildren _).trans ?_
              refine ((ids_append_unchanged plan _).append_left _).trans ?_
              exact List.perm_middle
termination_by structural p

/-- The child loop accumulates exactly the ids of the forest. -/
theorem analyzeChildren_ids_perm (s : Storage) (plan : Plan) (ps : List PageTree)
    (parentDir : Option LPath) :
    ((analyzeChildren s plan ps parentDir).2).ids.Perm
      (PageTree.idsOfForest ps ++ plan.ids) := by
  cases ps with
  | nil => simp [analyzeChildren, PageTree.idsOfForest]
  | cons c rest =>
    simp only [analyzeChildren, PageTree.idsOfForest]
    refine (analyzeChildren_ids_perm _ _ rest _).trans ?_
    refine ((analyzePage_ids_perm s plan c parentDir).append_left _).trans ?_
    rw [← List.append_assoc]
    exact (List.perm_append_comm).append_right _
termination_by structural ps

end

/-- C4: in every sync plan the pull Diff Planner produces from a remote tree
with pairwise distinct ids, a given remote id appears in at most one of the
buckets to_create, to_update, to_rename, unchanged (indeed at most once
across all four buckets together). -/
theorem claim4_id_in_at_most_one_bucket (s : Storage) (t : PageTree)
    (h : t.ids.Nodup) (pid : String) :
    ((createSyncPlan t s).2).ids.count pid ≤ 1 := by
  have hp : ((createSyncPlan t s).2).ids.Perm t.ids := by
    simpa [createSyncPlan, emptyPlan, Plan.ids] using
      analyzePage_ids_perm s emptyPlan t none
  rw [hp.count_eq]
  exact List.nodup_iff_count_le_one.mp h pid

def c4Storage : Storage := ⟨[[], [".csync"]], [], [], [], none⟩

def c4Tree : PageTree := .mk "1" "A" 2 "ax" [.mk "2" "B" 1 "bx" [], .mk "3" "A" 1 "cx" []]

theorem claim4_id_in_at_most_one_bucket_witness :
    (PageTree.ids c4Tree).Nodup ∧ ((createSyncPlan c4Tree c4Storage).2).ids.count "1" ≤ 1 :=
  ⟨by decide, claim4_id_in_at_most_one_bucket c4Storage c4Tree (by decide) "1"⟩

theorem execRenames_events (s : Storage) (rs : List RenameItem) :
    ∀ e ∈ (execRenames s rs).2, e.isRenamed = true := by
  induction rs generalizing s with
  | nil => simp [execRenames]
  | cons it rest ih =>
    simp only [execRenames]
    cases h : handleRenamedPage s it.id it.newTitle with
    | error e => simp
    | ok r =>
      intro e he
      rcases List.mem_cons.mp he with h1 | h1
      · simp [h1, ExecEvent.isRenamed]
      · exact ih r.1 e h1

theorem execCreates_events (s : Storage) (cs : List CreateItem) :
    ∀ e ∈ (execCreates s cs).2, e.isCreated = true := by
  induction cs generalizing s with
  | nil => simp [execCreates]
  | cons it rest ih =>
    simp only [execCreates]
    intro e he
    rcases List.mem_cons.mp he with h1 | h1
    · simp [h1, ExecEvent.isCreated]
    · exact ih _ e h1

theorem execUpdates_events (s : Storage) (us : List UpdateItem) :
    ∀ e ∈ (execUpdates s us).2, e.isUpdated = true := by
  induction us generalizing s with
  | nil => simp [execUpdates]
  | cons it rest ih =>
    simp only [execUpdates]
    intro e he
    rcases List.mem_cons.mp he with h1 | h1
    · simp [h1, ExecEvent.isUpdated]
    · exact ih _ e h1

/-- The event trace of a plan execution decomposes into a rename region, a
create region, and an update region, in that order. -/
theorem executeSyncPlan_trace (plan : Plan) (s : Storage) :
    ∃ A B C, (executeSyncPlan plan s).2 = A ++ B ++ C ∧
      (∀ e ∈ A, e.isRenamed = true) ∧ (∀ e ∈ B, e.isCreated = true) ∧
      (∀ e ∈ C, e.isUpdated = true) := by
  unfold executeSyncPlan
  cases h : execRenames s plan.toRename with
  | mk res tr =>
    cases res with
    | error e =>
      refine ⟨tr, [], [], by simp, ?_, by simp, by simp⟩
      have := execRenames_events s plan.toRename
      rw [h] at this
      exact this
    | ok s1 =>
      refine ⟨tr, (execCreates s1 plan.toCreate).2,
        (execUpdates (execCreates s1 plan.toCreate).1 plan.toUpdate).2, by simp, ?_, ?_, ?_⟩
      · have := execRenames_events s plan.toRename
        rw [h] at this
        exact this
      · exact execCreates_events _ _
      · exact execUpdates_events _ _

theorem event_not_renamed_and_created (e : ExecEvent) :
    e.isRenamed = true → e.isCreated = true → False := by
  cases e <;> simp [ExecEvent.isRenamed, ExecEvent.isCreated]

theorem event_not_renamed_and_updated (e : ExecEvent) :
    e.isRenamed = true → e.isUpdated = true → False := by
  cases e <;> simp [ExecEvent.isRenamed, ExecEvent.isUpdated]

theorem event_not_created_and_updated (e : ExecEvent) :
    e.isCreated = true → e.isUpdated = true → False := by
  cases e <;> simp [ExecEvent.isCreated, ExecEvent.isUpdated]

theorem region_member {A B C : List ExecEvent} (k : Nat)
    (hk : k < (A ++ B ++ C).length) :
    (k < A.length ∧ (A ++ B ++ C).get ⟨k, hk⟩ ∈ A) ∨
    (A.length ≤ k ∧ k < A.length + B.length ∧ (A ++ B ++ C).get ⟨k, hk⟩ ∈ B) ∨
    (A.length + B.length ≤ k ∧ (A ++ B ++ C).get ⟨k, hk⟩ ∈ C) := by
  simp only [List.get_eq_getElem]
  by_cases h1 : k < A.length
  · left
    refine ⟨h1, ?_⟩
    have hab : k < (A ++ B).length := by simp; omega
    rw [List.getElem_append_left hab, List.getElem_append_left h1]
    exact List.getElem_mem _
  · by_cases h2 : k < A.length + B.length
    · right; left
      refine ⟨Nat.le_of_not_lt h1, h2, ?_⟩
      have hab : k < (A ++ B).length := by simp; omega
      rw [List.getElem_append_left hab, List.getElem_append_right (Nat.le_of_not_lt h1)]
      exact List.getElem_mem _
    · right; right
      refine ⟨Nat.le_of_not_lt h2, ?_⟩
      have hab : (A ++ B).length ≤ k := by simp; omega
      rw [List.getElem_append_right hab]
      exact List.getElem_mem _

/-- C2: in the trace of SyncEngine._execute_sync_plan, every applied rename
precedes every applied create, every applied rename precedes every applied
update, and every applied create precedes every applied update; in
particular, for a plan containing a rename of a node and a create of its
child, the rename is applied first. -/
theorem claim2_execution_order (plan : Plan) (s : Storage) (i j : Nat)
    (hi : i < (executeSyncPlan plan s).2.length)
    (hj : j < (executeSyncPlan plan s).2.length) :
    (((executeSyncPlan plan s).2.get ⟨i, hi⟩).isRenamed = true →
      ((executeSyncPlan plan s).2.get ⟨j, hj⟩).isCreated = true → i < j) ∧
    (((executeSyncPlan plan s).2.get ⟨i, hi⟩).isRenamed = true →
      ((executeSyncPlan plan s).2.get ⟨j, hj⟩).isUpdated = true → i < j) ∧
    (((executeSyncPlan plan s).2.get ⟨i, hi⟩).isCreated = true →
      ((executeSyncPlan plan s).2.get ⟨j, hj⟩).isUpdated = true → i < j) := by
  obtain ⟨A, B, C, htr, hA, hB, hC⟩ := executeSyncPlan_trace plan s
  revert hi hj
  rw [htr]
  intro hi hj
  refine ⟨?_, ?_, ?_⟩
  · intro hri hcj
    rcases region_member i hi with ⟨h1, hm⟩ | ⟨h1, h2, hm⟩ | ⟨h1, hm⟩
    · rcases region_member j hj with ⟨g1, gm⟩ | ⟨g1, g2, gm⟩ | ⟨g1, gm⟩
      · exact absurd hcj (by simpa using fun h => event_not_renamed_and_created _ (hA _ gm) h)
      · omega
      · exact absurd hcj (by simpa using fun h => event_not_created_and_updated _ h (hC _ gm))
    · exact absurd hri (by simpa using fun h => event_not_renamed_and_created _ h (hB _ hm))
    · exact absurd hri (by simpa using fun h => event_not_renamed_and_updated _ h (hC _ hm))
  · intro hri huj
    rcases region_member i hi with ⟨h1, hm⟩ | ⟨h1, h2, hm⟩ | ⟨h1, hm⟩
    · rcases region_member j hj with ⟨g1, gm⟩ | ⟨g1, g2, gm⟩ | ⟨g1, gm⟩
      · exact absurd huj (by simpa using fun h => event_not_renamed_and_updated _ (hA _ gm) h)
      · omega
      · omega
    · exact absurd hri (by simpa using fun h => event_not_renamed_and_created _ h (hB _ hm))
    · exact absurd hri (by simpa using fun h => event_not_renamed_and_updated _ h (hC _ hm))
  · intro hci huj
    rcases region_member i hi with ⟨h1, hm⟩ | ⟨h1, h2, hm⟩ | ⟨h1, hm⟩
    · exact absurd hci (by simpa using fun h => event_not_renamed_and_created _ (hA _ hm) h)
    · rcases region_member j hj with ⟨g1, gm⟩ | ⟨g1, g2, gm⟩ | ⟨g1, gm⟩
      · exact absurd huj (by simpa using fun h => event_not_renamed_and_updated _ (hA _ gm) h)
      · exact absurd huj (by simpa using fun h => event_not_created_and_updated _ (hB _ gm) h)
      · omega
    · exact absurd hci (by simpa using fun h => event_not_created_and_updated _ h (hC _ hm))

def w2Storage : Storage := ⟨[], [], [], [], none⟩

def w2Tree : PageTree := .mk "c" "C" 1 "cx" []

def w2Plan : Plan :=
  ⟨[⟨"u", "U", ["U"], .mk "u" "U" 2 "ux" []⟩],
   [⟨"c", "C", none, w2Tree⟩],
   [],
   [⟨"r", "A", "B", ["A"], .mk "r" "B" 1 "rx" []⟩]⟩

theorem claim2_execution_order_witness :
    ((0 : Nat) < 1) ∧ ((0 : Nat) < 2) ∧ ((1 : Nat) < 2) :=
  ⟨(claim2_execution_order w2Plan w2Storage 0 1 (by decide) (by decide)).1
      (by decide) (by decide),
   (claim2_execution_order w2Plan w2Storage 0 2 (by decide) (by decide)).2.1
      (by decide) (by decide),
   (claim2_execution_order w2Plan w2Storage 1 2 (by decide) (by decide)).2.2
      (by decide) (by decide)⟩

/-- Two storage states agreeing on everything except possibly the id map:
the sync-plan analysis reads directories, metadata and content but writes
only the id-map cache (lazy repair). -/
def SameFiles (a b : Storage) : Prop :=
  a.dirs = b.dirs ∧ a.meta = b.meta ∧ a.content = b.content ∧ a.planFile = b.planFile

theorem SameFiles.trans {a b c : Storage} (h1 : SameFiles a b) (h2 : SameFiles b c) :
    SameFiles a c :=
  ⟨h1.1.trans h2.1, h1.2.1.trans h2.2.1, h1.2.2.1.trans h2.2.2.1, h1.2.2.2.trans h2.2.2.2⟩

theorem scanForId_sameFiles (s : Storage) (pid : String) :
    SameFiles (scanForId s pid).2 s := by
  unfold scanForId updateIdMap
  split <;> exact ⟨rfl, rfl, rfl, rfl⟩

theorem getPageDirById_sameFiles (s : Storage) (pid : String) :
    SameFiles (getPageDirById s pid).2 s := by
  unfold getPageDirById
  split
  · split
    · exact ⟨rfl, rfl, rfl, rfl⟩
    · exact scanForId_sameFiles s pid
  · exact scanForId_sameFiles s pid

mutual

/-- Plan analysis touches only the id-map cache of the storage. -/
theorem analyzePage_sameFiles (s : Storage) (plan : Plan) (p : PageTree)
    (parentDir : Option LPath) :
    SameFiles ((analyzePage s plan p parentDir).1) s := by
  cases p with
  | mk pid ptitle pversion pcontent pchildren =>
    simp only [analyzePage]
    cases hr : getPageDirById s pid with
    | mk res s1 =>
      have hres : SameFiles s1 s := by
        have := getPageDirById_sameFiles s pid
        rw [hr] at this
        exact this
      cases res with
      | none => exact (analyzeChildren_sameFiles s1 _ pchildren _).trans hres
      | some localDir => exact (analyzeChildren_sameFiles s1 _ pchildren _).trans hres
termination_by structural p

theorem analyzeChildren_sameFiles (s : Storage) (plan : Plan) (ps : List PageTree)
    (parentDir : Option LPath) :
    SameFiles ((analyzeChildren s plan ps parentDir).1) s := by
  cases ps with
  | nil => exact ⟨rfl, rfl, rfl, rfl⟩
  | cons c rest =>
    simp only [analyzeChildren]
    exact (analyzeChildren_sameFiles _ _ rest _).trans (analyzePage_sameFiles s plan c parentDir)
termination_by structural ps

end

/-- C5, amended: a dry-run pull performs the full plan computation, makes no
remote write (the pull path issues none anywhere), and leaves every page
content artifact and metadata record untouched; however it is not entirely
effect-free, because it still creates the base and control directories,
writes the computed sync plan file and may rewrite the id-map cache during
analysis (see the counterexample). -/
theorem claim5_dry_run_amended (t : PageTree) (s : Storage) :
    ∃ s1 pl, pull true t s = .ok (s1, pl) ∧ s1.meta = s.meta ∧ s1.content = s.content := by
  refine ⟨_, _, rfl, ?_, ?_⟩
  · have h := analyzePage_sameFiles (initLocalStorageDirs s) emptyPlan t none
    simpa [pull, writePlanFile, createSyncPlan, initLocalStorageDirs] using h.2.1
  · have h := analyzePage_sameFiles (initLocalStorageDirs s) emptyPlan t none
    simpa [pull, writePlanFile, createSyncPlan, initLocalStorageDirs] using h.2.2.1

def c5Storage : Storage := ⟨[], [], [], [], none⟩

def c5Tree : PageTree := .mk "1" "A" 1 "x" []

/-- C5, counterexample: a dry-run pull on an empty destination is not free of
local filesystem writes: it creates the base directory and the .csync control
directory (and writes the sync-plan file), so the first run changes the
observable local state. -/
theorem claim5_dry_run_counterexample :
    ((pull true c5Tree c5Storage).toOption.map (fun x => x.1.dirs)) = some [[], [".csync"]] ∧
    ((pull true c5Tree c5Storage).toOption.map (fun x => x.1.planFile.isSome)) = some true ∧
    c5Storage.dirs = [] ∧ c5Storage.planFile.isSome = false := by
  exact ⟨rfl, rfl, rfl, rfl⟩

def c3Storage : Storage :=
  ⟨[[], [".csync"], ["A"]], [(["A"], ⟨some "1", "A", 1⟩)], [(["A"], "old")],
   [("1", ["A"])], none⟩

def c3Tree : PageTree := .mk "1" "A" 2 "new" []

/-- C3: evaluation at the failing input. The mirror holds the bound page
"A" (id 1) at version 1 and the remote offers version 2, so the first pull
plans an update; executing it hands `local_dir.parent` to pull_page, which
re-derives the target as parent/children/title and therefore writes the new
content under children/A instead of A. The second pull, with no remote
change in between, still sees version 1 at the bound path and plans the
same update again: its to_update bucket is nonempty and its unchanged
bucket is empty, refuting the claim that a second run classifies every
node as unchanged. -/
theorem claim3_second_pull_not_unchanged :
    (match pull false c3Tree c3Storage with
      | .ok (s1, _) => some (s1.content.map Prod.fst)
      | .error _ => none) = some [["A"], ["children", "A"]] ∧
    (match pull false c3Tree c3Storage with
      | .ok (s1, _) =>
        match pull false c3Tree s1 with
        | .ok (_, pl2) =>
          some (pl2.toUpdate.map UpdateItem.id, pl2.unchanged,
            pl2.toCreate.map CreateItem.id, pl2.toRename.map RenameItem.id)
        | .error _ => none
      | .error _ => none) = some (["1"], [], [], []) := by
  exact ⟨by decide, by decide⟩

theorem lookup_upsertAssoc_self {α β : Type} [BEq α] [LawfulBEq α]
    (l : List (α × β)) (k : α) (v : β) : (upsertAssoc l k v).lookup k = some v := by
  induction l with
  | nil => simp [upsertAssoc, List.lookup]
  | cons e rest ih =>
    obtain ⟨k0, v0⟩ := e
    by_cases h : k0 = k
    · simp [upsertAssoc, h, List.lookup]
    · simp only [upsertAssoc, beq_iff_eq, h, if_false, List.lookup]
      have : (k == k0) = false := by simpa using fun hh => h hh.symm
      simp [this, ih]

theorem mem_upsertAssoc_of_ne {α β : Type} [BEq α] [LawfulBEq α]
    {l : List (α × β)} {k0 : α} {v0 : β} (k : α) (v : β)
    (hm : (k0, v0) ∈ l) (hne : k0 ≠ k) : (k0, v0) ∈ upsertAssoc l k v := by
  induction l with
  | nil => cases hm
  | cons e rest ih =>
    obtain ⟨k1, v1⟩ := e
    rcases List.mem_cons.mp hm with h | h
    · have hk1 : k1 ≠ k := by
        intro hk
        exact hne (by injection h with h1 h2; exact h1.trans hk)
      simp only [upsertAssoc, beq_iff_eq, hk1, if_false]
      exact h ▸ List.mem_cons_self _ _
    · by_cases hk1 : k1 = k
      · simp only [upsertAssoc, beq_iff_eq, hk1, if_true]
        exact List.mem_cons_of_mem _ h
      · simp only [upsertAssoc, beq_iff_eq, hk1, if_false]
        exact List.mem_cons_of_mem _ (ih h)

theorem mem_mkdirParents {dirs : List LPath} {d : LPath} (p : LPath) (h : d ∈ dirs) :
    d ∈ mkdirParents dirs p := by
  unfold mkdirParents
  generalize p.inits = qs
  induction qs generalizing dirs with
  | nil => simpa using h
  | cons q rest ih =>
    simp only [List.foldl_cons]
    by_cases hq : dirs.contains q
    · rw [if_pos hq]
      exact ih h
    · rw [if_neg hq]
      exact ih (List.mem_append_left _ h)

theorem rebasePath_untouched {oldDir newDir p : LPath}
    (h : oldDir.isPrefixOf p = false) : rebasePath oldDir newDir p = p := by
  simp [rebasePath, h]

def c6Storage : Storage :=
  ⟨[[], ["P"], ["P", "children"], ["P", "children", "A"], ["P", "children", "B"]],
   [(["P", "children", "A"], ⟨some "123", "A", 1⟩),
    (["P", "children", "B"], ⟨some "9", "B", 1⟩)],
   [], [("123", ["P", "children", "A"])], none⟩

/-- C6, counterexample: renaming child page id 123 from A to B while a
sibling directory B (id 9) already exists moves the page to P/B_123, which
is directly under the grandparent P, not under the parent location
P/children of the non-colliding target P/children/B: the code drops the
"children" component when building the disambiguated path. -/
theorem claim6_collision_counterexample :
    ((handleRenamedPage c6Storage "123" "B").toOption.map (fun x => x.2)) =
      some ["P", "B_123"] ∧
    (["P", "B_123"] : LPath).dropLast ≠ (renameTargetDir ["P", "children", "A"] "B").dropLast := by
  exact ⟨by decide, by decide⟩

/-- C6, amended: when a rename collides with an existing different directory,
the node is moved to the sanitized new title suffixed by the remote id placed
directly under `renameParentDir` (for a top-level page this is the same
parent as the non-colliding target, but for a child page the "children"
component is dropped, so the result is under the grandparent); the collision
is never surfaced as an error, the colliding directory and its metadata
record are left in place, and the id-map entry is refreshed to the new path.
The prefix hypothesis rules out the degenerate resolution of the page to an
ancestor of the colliding directory, in which case the move would carry the
colliding directory along. -/
theorem claim6_collision_amended (s s1 : Storage) (pageId newTitle : String)
    (currentDir : LPath) (md m0 : PageMeta)
    (hres : getPageDirById s pageId = (some currentDir, s1))
    (hmd : getPageMetadata s1 currentDir = some md)
    (hcol : renameTargetDir currentDir newTitle ∈
      (savePageMetadata s1 currentDir { md with title := newTitle }).dirs)
    (hne : renameTargetDir currentDir newTitle ≠ currentDir)
    (hnp : currentDir.isPrefixOf (renameTargetDir currentDir newTitle) = false)
    (hm0 : (renameTargetDir currentDir newTitle, m0) ∈ s1.meta) :
    ∃ s4, handleRenamedPage s pageId newTitle =
        .ok (s4, renameSuffixedDir currentDir newTitle pageId) ∧
      s4.idMap.lookup pageId = some (renameSuffixedDir currentDir newTitle pageId) ∧
      (renameTargetDir currentDir newTitle, m0) ∈ s4.meta ∧
      renameTargetDir currentDir newTitle ∈ s4.dirs := by
  have hcond : ((savePageMetadata s1 currentDir { md with title := newTitle }).dirs.contains
      (renameTargetDir currentDir newTitle)) = true ∧
      renameTargetDir currentDir newTitle ≠ currentDir :=
    ⟨List.elem_iff.mpr hcol, hne⟩
  have hm2 : (renameTargetDir currentDir newTitle, m0) ∈
      (savePageMetadata s1 currentDir { md with title := newTitle }).meta := by
    simp only [savePageMetadata]
    exact mem_upsertAssoc_of_ne _ _ hm0 hne
  simp only [handleRenamedPage, hres, hmd]
  rw [if_pos hcond]
  by_cases hmv : currentDir ≠ renameSuffixedDir currentDir newTitle pageId
  · rw [if_pos hmv]
    refine ⟨_, rfl, ?_, ?_, ?_⟩
    · exact lookup_upsertAssoc_self _ _ _
    · simp only [updateIdMap, moveDir]
      refine List.mem_map.mpr ⟨(renameTargetDir currentDir newTitle, m0), hm2, ?_⟩
      simp [rebasePath_untouched hnp]
    · simp only [updateIdMap, moveDir]
      refine List.mem_map.mpr ⟨renameTargetDir currentDir newTitle,
        mem_mkdirParents _ hcol, ?_⟩
      exact rebasePath_untouched hnp
  · rw [if_neg hmv]
    refine ⟨_, rfl, ?_, ?_, ?_⟩
    · exact lookup_upsertAssoc_self _ _ _
    · simpa only [updateIdMap] using hm2
    · simpa only [updateIdMap] using hcol

theorem claim6_collision_amended_witness :
    ∃ s4, handleRenamedPage c6Storage "123" "B" =
        .ok (s4, renameSuffixedDir ["P", "children", "A"] "B" "123") ∧
      s4.idMap.lookup "123" = some (renameSuffixedDir ["P", "children", "A"] "B" "123") ∧
      ((renameTargetDir ["P", "children", "A"] "B", (⟨some "9", "B", 1⟩ : PageMeta)) ∈
        s4.meta) ∧
      renameTargetDir ["P", "children", "A"] "B" ∈ s4.dirs :=
  claim6_collision_amended c6Storage c6Storage "123" "B" ["P", "children", "A"]
    ⟨some "123", "A", 1⟩ ⟨some "9", "B", 1⟩ rfl rfl (by decide) (by decide) (by decide)
    (by decide)

def c7Storage : Storage :=
  ⟨[[], ["R"], ["R", "children"], ["R", "children", "C"]],
   [(["R"], ⟨none, "R", 1⟩), (["R", "children", "C"], ⟨none, "C", 1⟩)],
   [(["R"], "<p>r</p>"), (["R", "children", "C"], "<p>c</p>")], [], none⟩

def c7Remote : Remote := ⟨[], 0⟩

/-- C7: evaluation at the failing input. Pushing a fresh local tree (root R
with child C, neither bound to a remote id) issues the create of R under the
push target and then pushes the child with the returned id (id0) as its
parent id, as the claim says; but no storage write happens anywhere in
push_page (the version write-back is commented out in the code), so the
returned id and version are never persisted into the local metadata: the
push functions do not even take the storage by mutable reference in the
model, and the metadata records of R and C still carry no id after the push
(second conjunct, on the unchanged input storage). -/
theorem claim7_push_no_persist :
    pushPageTree true c7Storage c7Remote ["R"] "root" =
      .ok (⟨[⟨"id0", "R", "<p>r</p>", 1, some "root"⟩,
             ⟨"id1", "C", "<p>c</p>", 1, some "id0"⟩], 2⟩,
           [⟨"root", "R", "<p>r</p>"⟩, ⟨"id0", "C", "<p>c</p>"⟩], "id0") ∧
    (getPageMetadata c7Storage ["R"]).map PageMeta.id = some none ∧
    (getPageMetadata c7Storage ["R", "children", "C"]).map PageMeta.id = some none := by
  exact ⟨rfl, rfl, rfl⟩

/-- C8, counterexample: an index file that exists but does not parse makes
the construction of the Local Index fail (json.load raises out of
LocalStorage.__init__, which has no handler around it), instead of yielding
the empty map. -/
theorem claim8_index_load_counterexample : loadIdMap (some none) = .error () := rfl

/-- C8, amended: a missing index file yields the empty map, a parseable
index file yields its parsed map, but an unparseable (corrupted) index file
causes construction of the Local Index to raise rather than being treated
as empty; only corrupt metadata files encountered during the fallback scan
are skipped silently. -/
theorem claim8_index_load_amended (m : List (String × String)) :
    loadIdMap none = .ok [] ∧ loadIdMap (some (some m)) = .ok m ∧
    loadIdMap (some none) = .error () :=
  ⟨rfl, rfl, rfl⟩

/-- C9: pushing a local node whose metadata record is present but whose
content artifact is absent or empty does not fail: the update_or_create
call is issued with the placeholder body in place of the missing content. -/
theorem claim9_missing_content_placeholder (s : Storage) (r : Remote) (localDir : LPath)
    (parentId : String) (md : PageMeta)
    (hmd : getPageMetadata s localDir = some md)
    (hc : getPageContent s localDir = none ∨ getPageContent s localDir = some "") :
    pushPage s r localDir parentId =
      .ok ((updateOrCreate r parentId md.title todoBody).1,
           [⟨parentId, md.title, todoBody⟩],
           (updateOrCreate r parentId md.title todoBody).2.id) := by
  rcases hc with h | h <;> simp [pushPage, h, hmd]

def w9Storage : Storage := ⟨[[], ["E"]], [(["E"], ⟨some "5", "E", 1⟩)], [(["E"], "")], [], none⟩

def w9Remote : Remote := ⟨[], 0⟩

theorem claim9_missing_content_placeholder_witness :
    pushPage w9Storage w9Remote ["E"] "root" =
      .ok ((updateOrCreate w9Remote "root" "E" todoBody).1,
           [⟨"root", "E", todoBody⟩],
           (updateOrCreate w9Remote "root" "E" todoBody).2.id) :=
  claim9_missing_content_placeholder w9Storage w9Remote ["E"] "root" ⟨some "5", "E", 1⟩
    rfl (Or.inr rfl)

/-- Unfolding of the sanitizer to its character list. -/
theorem sanitizeFilename_toList (s : String) :
    (sanitizeFilename s).toList =
      (if (s.toList.map (fun c => if invalidFileChars.contains c then '_' else c)).length > 255
       then (s.toList.map (fun c => if invalidFileChars.contains c then '_' else c)).take 255
       else s.toList.map (fun c => if invalidFileChars.contains c then '_' else c)) := rfl

theorem sanitize_map_mem (s : String) :
    ∀ c ∈ (s.toList.map (fun c => if invalidFileChars.contains c then '_' else c)),
      c ∉ invalidFileChars := by
  intro c hc
  rcases List.mem_map.mp hc with ⟨a, _, ha⟩
  by_cases h : invalidFileChars.contains a
  · rw [if_pos h] at ha
    rw [← ha]
    decide
  · rw [if_neg h] at ha
    rw [← ha]
    simpa [List.elem_iff] using h

/-- The sanitizer fixes any string that is already clean and short enough. -/
theorem sanitizeFilename_of_clean (t : String)
    (h1 : ∀ c ∈ t.toList, c ∉ invalidFileChars) (h2 : t.toList.length ≤ 255) :
    sanitizeFilename t = t := by
  have hmap : t.toList.map (fun c => if invalidFileChars.contains c then '_' else c)
      = t.toList := by
    have hcg := List.map_congr_left (l := t.toList)
      (f := fun c => if invalidFileChars.contains c then '_' else c) (g := id)
      (fun a ha => by
        show (if invalidFileChars.contains a = true then '_' else a) = id a
        rw [if_neg (fun hcontains => h1 a ha (List.elem_iff.mp hcontains))]
        rfl)
    rw [List.map_id] at hcg
    exact hcg
  simp only [sanitizeFilename, hmap]
  rw [if_neg (by omega)]
  rfl

/-- C10: the filename sanitizer is total and idempotent: its output contains
none of the nine forbidden characters, is at most 255 characters long, and
sanitizing twice equals sanitizing once, so deriving a directory path for
the same title always yields the same path. -/
theorem claim10_sanitize_total_idempotent (s : String) :
    (∀ c ∈ (sanitizeFilename s).toList, c ∉ invalidFileChars) ∧
    (sanitizeFilename s).toList.length ≤ 255 ∧
    sanitizeFilename (sanitizeFilename s) = sanitizeFilename s := by
  have h1 : ∀ c ∈ (sanitizeFilename s).toList, c ∉ invalidFileChars := by
    intro c hc
    rw [sanitizeFilename_toList] at hc
    revert hc
    split
    · intro hc
      exact sanitize_map_mem s c (List.mem_of_mem_take hc)
    · intro hc
      exact sanitize_map_mem s c hc
  have h2 : (sanitizeFilename s).toList.length ≤ 255 := by
    rw [sanitizeFilename_toList]
    split
    · simp
    · omega
  exact ⟨h1, h2, sanitizeFilename_of_clean (sanitizeFilename s) h1 h2⟩

theorem claim10_sanitize_total_idempotent_witness :
    ('_' ∈ (sanitizeFilename "a<b").toList → '_' ∉ invalidFileChars) ∧
    (sanitizeFilename "a<b").toList.length ≤ 255 ∧
    sanitizeFilename (sanitizeFilename "a<b") = sanitizeFilename "a<b" :=
  ⟨(claim10_sanitize_total_idempotent "a<b").1 '_',
   (claim10_sanitize_total_idempotent "a<b").2.1,
   (claim10_sanitize_total_idempotent "a<b").2.2⟩

end Csync

